import Mathlib

/-!
Verification of the host-key verification and known-hosts persistence engine
of the ssh package (ssh_gocrypto.go).

The embedding translates `hostKeyCallback`, `checkHostKey`, the interactive
prompt loop, the persistence sequence (lines 341-375 of the source), and the
process-wide known-hosts-path accessors into pure Lean functions.  File
contents are `List Char` (the source manipulates raw bytes of an ASCII text
file), the file system and lock effects are recorded as an explicit trace of
operations, and the interactive terminal is an optional script of input
lines.
-/

namespace SSHGoCrypto

/-- One parsed line of the known-hosts store: hostname, key type, raw key
bytes, and the file/line the record came from (spec section 3,
HostKeyRecord; mirrors knownhosts.KnownKey as consumed by checkHostKey). -/
structure HostKeyRecord where
  hostname : String
  keyType : String
  keyBytes : List Nat
  filename : String
  line : Nat
deriving DecidableEq

/-- The offered public key (spec section 3, PublicKeyRef): its algorithm
name (key.Type()), its marshalled bytes, and its SHA-256 fingerprint
rendering.  The fingerprint is carried as a field because it is produced by
the external crypto library (ssh.FingerprintSHA256) and is used only for
human display, never for matching. -/
structure PublicKey where
  keyType : String
  raw : List Nat
  fingerprint : String
deriving DecidableEq

/-- Modelled from the spec: the StrictHostChecksOption enumeration
(Disabled, Default/Ask, ExplicitAsk, Strict) whose declaration lives in the
repository outside this excerpt.  The source switch handles
StrictHostChecksNo, StrictHostChecksDefault and StrictHostChecksAsk
explicitly; every other value (StrictHostChecksYes, i.e. Strict) falls to
the default branch. -/
inductive StrictHostChecksOption where
  | no
  | default
  | ask
  | yes
deriving DecidableEq

/-- Configuration visible to hostKeyCallback: the per-connection
knownHostsFile, the process-wide default path (the goCryptoKnownHostsFile
global) and the strictness policy. -/
structure Config where
  knownHostsFile : String
  goCryptoKnownHostsFile : String
  strictHostKeyChecking : StrictHostChecksOption
deriving DecidableEq

/-- A message emitted during verification: either written to the
interactive terminal (fmt.Fprint/Fprintln on term) or sent to the log sink
(logger.Errorf). -/
inductive Output where
  | term (msg : String)
  | log (msg : String)
deriving DecidableEq

/-- A file-system or lock operation performed by the persistence sequence. -/
inductive FsOp where
  | acquireLock (name : String)
  | acquireFail (name : String)
  | releaseLock (name : String)
  | readFile (path : String)
  | writeFile (path : String) (contents : List Char)
  | rename (src : String) (dst : String)
deriving DecidableEq

/-- The verdict returned to the transport layer: nil error (accept) or a
descriptive error (reject). -/
inductive Outcome where
  | accept
  | reject (msg : String)
deriving DecidableEq

/-- The observable result of one hostKeyCallback invocation: the verdict,
the known-hosts file contents afterwards (none = file still missing), the
messages emitted, and the trace of file-system/lock operations. -/
structure CallbackResult where
  result : Outcome
  contents : Option (List Char)
  outputs : List Output
  ops : List FsOp
deriving DecidableEq

/-- Result of checkHostKey: the matched boolean, the returned error (as its
message), and messages printed through printError. -/
structure CheckResult where
  matched : Bool
  err : Option String
  outputs : List Output
deriving DecidableEq

/-! ### Base64 encoding (models encoding/base64 StdEncoding as used by
the knownhosts line serialization) -/

/-- The standard base64 alphabet. -/
def base64Chars : List Char :=
  "ABCDEFGHIJKLMNOPQRSTUVWXYZabcdefghijklmnopqrstuvwxyz0123456789+/".toList

/-- The alphabet character for a 6-bit group. -/
def b64char (n : Nat) : Char :=
  if h : n % 64 < base64Chars.length then base64Chars.get ⟨n % 64, h⟩ else 'A'

/-- Standard base64 with padding over a byte sequence. -/
def base64Encode : List Nat → List Char
  | [] => []
  | [a] => [b64char (a / 4), b64char (a % 4 * 16), '=', '=']
  | [a, b] => [b64char (a / 4), b64char (a % 4 * 16 + b / 16), b64char (b % 16 * 4), '=']
  | a :: b :: c :: rest =>
    b64char (a / 4) :: b64char (a % 4 * 16 + b / 16) :: b64char (b % 16 * 4 + c / 64) ::
      b64char (c % 64) :: base64Encode rest

/-! ### Known-hosts line formatting and the append sequence -/

/-- knownhosts.Line([]string{hostname}, key): the serialized record
"hostname keyType base64(key)" with no trailing newline. -/
def knownhostsLine (hostname : String) (key : PublicKey) : List Char :=
  hostname.toList ++ [' '] ++ key.keyType.toList ++ [' '] ++ base64Encode key.raw

/-- The fixed cross-process lock name (mutex.Spec Name "juju-ssh-client"). -/
def lockName : String := "juju-ssh-client"

/-- os.DevNull: the discard sink; persistence to it is skipped. -/
def osDevNull : String := "/dev/null"

/-- Modelled from the spec: utils.AtomicWriteFile (declared in the
repository outside this excerpt) writes the new contents to a temporary
file in the same directory and renames it over the target. -/
def tmpPath (path : String) : String := path ++ ".tmp"

/-- Lines 360-362 of the source: if the existing data is non-empty and its
last byte is not a newline, append one. -/
def ensureTrailingNewline (data : List Char) : List Char :=
  if data ≠ [] ∧ data.getLast? ≠ some '\n' then data ++ ['\n'] else data

/-- Lines 359-364 of the source: the new file contents after appending one
record — existing data (newline-terminated if it was not), the record line,
one trailing newline. -/
def appendRecord (data : List Char) (line : List Char) : List Char :=
  ensureTrailingNewline data ++ line ++ ['\n']

/-- Splitting file contents into lines at newline characters; the result is
always non-empty, and a trailing newline yields a final empty line. -/
def splitLines : List Char → List (List Char)
  | [] => [[]]
  | c :: rest =>
    let r := splitLines rest
    if c = '\n' then [] :: r
    else (c :: r.headD []) :: r.tail

/-! ### Store classification (the knownhosts callback as consumed by
checkHostKey) -/

/-- The classification of an offered key against the store (spec section 3,
VerificationOutcome). -/
inductive KeyOutcome where
  | matched
  | unknown
  | changed
deriving DecidableEq

/-- Whether a record is an exact match for the offered hostname and key
(hostname, key type and key bytes all equal). -/
def recordMatches (r : HostKeyRecord) (hostname : String) (key : PublicKey) : Bool :=
  r.hostname == hostname && r.keyType == key.keyType && r.keyBytes == key.raw

/-- The records the store holds for a hostname (any key type); these become
knownhosts.KeyError.Want when the offered key does not match. -/
def wantKeys (records : List HostKeyRecord) (hostname : String) : List HostKeyRecord :=
  records.filter fun r => r.hostname == hostname

/-- The knownhosts callback classification: an exact record match is
Matched; no record for the hostname is Unknown; records for the hostname
none of which match is Changed (spec section 4.1). -/
def classifyKey (records : List HostKeyRecord) (hostname : String) (key : PublicKey) :
    KeyOutcome :=
  if records.any fun r => recordMatches r hostname key then .matched
  else if (wantKeys records hostname).isEmpty then .unknown
  else .changed

/-! ### Messages (string literals of the source) -/

/-- knownhosts.KeyError.Error() when Want is non-empty. -/
def keyMismatchError : String := "knownhosts: key mismatch"

/-- Line 264 of the source. -/
def configErrMsg : String := "known_hosts file not configured"

/-- Line 311 of the source. -/
def notTermErrMsg : String := "not running in a terminal, cannot prompt for verification"

/-- Line 326 of the source. -/
def verificationFailedMsg : String := "Host key verification failed."

/-- term.ReadLine failing with end of input. -/
def eofErrMsg : String := "EOF"

/-- Modelled from the spec: mutex.Acquire failing after the bounded wait. -/
def lockErrMsg : String := "timed out acquiring mutex"

/-- ioutil.ReadFile failing with an error other than not-exist. -/
def readErrMsg : String := "read error"

/-- utils.AtomicWriteFile failing. -/
def writeErrMsg : String := "write error"

/-- Lines 335-338 of the source: the strict-checking rejection. -/
def strictErrMsg (keyType hostname : String) : String :=
  "no " ++ keyType ++ " host key is known for " ++ hostname ++
    " and you have requested strict checking"

/-- Lines 298-305 of the source: the authenticity banner shown before the
yes/no question. -/
def authenticityMessage (hostname remoteAddr : String) (key : PublicKey) : String :=
  "The authenticity of host \x27" ++ hostname ++ " (" ++ remoteAddr ++
    ")\x27 can\x27t be established.\n" ++ key.keyType ++ " key fingerprint is " ++
    key.fingerprint ++ ".\n"

/-- Line 315 of the source. -/
def continuePrompt : String := "Are you sure you want to continue connecting (yes/no)? "

/-- Line 328 of the source. -/
def pleaseTypeMsg : String := "Please type \x27yes\x27 or \x27no\x27: "

/-- Lines 370-373 of the source. -/
def permanentlyAddedMsg (hostname keyType : String) : String :=
  "Warning: permanently added \x27" ++ hostname ++ "\x27 (" ++ keyType ++
    ") to the list of known hosts."

/-- Lines 428-439 of the source: the fixed security warning banner for a
changed key. -/
def changedKeyHead (key : PublicKey) (knownHostsFile : String) : String :=
  "@@@@@@@@@@@@@@@@@@@@@@@@@@@@@@@@@@@@@@@@@@@@@@@@@@@@@@@@@@@\n" ++
  "@    WARNING: REMOTE HOST IDENTIFICATION HAS CHANGED!     @\n" ++
  "@@@@@@@@@@@@@@@@@@@@@@@@@@@@@@@@@@@@@@@@@@@@@@@@@@@@@@@@@@@\n" ++
  "IT IS POSSIBLE THAT SOMEONE IS DOING SOMETHING NASTY!\n" ++
  "Someone could be eavesdropping on you right now (man-in-the-middle attack)!\n" ++
  "It is also possible that a host key has just been changed.\n" ++
  "The fingerprint for the " ++ key.keyType ++ " key sent by the remote host is\n" ++
  key.fingerprint ++ ".\n" ++
  "Please contact your system administrator.\n" ++
  "Add correct host key in " ++ knownHostsFile ++ " to get rid of this message.\n"

/-- Lines 441-466 of the source: the tail of the warning — the offending
entry of the offered type (the loop keeps the last such entry), or, when no
entry of that type exists, every known type/location for the host. -/
def changedKeyTail (key : PublicKey) (want : List HostKeyRecord) : String :=
  match (want.filter fun r => r.keyType == key.keyType).getLast? with
  | some r =>
    "Offending " ++ r.keyType ++ " key in " ++ r.filename ++ ":" ++ toString r.line
  | none =>
    "Host was previously using different host key algorithms:" ++
      String.join (want.map fun r =>
        "\n - " ++ r.keyType ++ " key in " ++ r.filename ++ ":" ++ toString r.line)

/-- printError (lines 268-283 of the source): write to the terminal when
one is attached, otherwise to the log sink.  Terminal writes are modelled as
always succeeding. -/
def printErrorOutput (termAvail : Bool) (msg : String) : Output :=
  if termAvail then .term msg else .log msg

/-! ### checkHostKey (lines 398-476 of the source) -/

/-- checkHostKey: a missing known-hosts file short-circuits to
(false, nil); a matched key returns (true, nil); an unknown host returns
(false, nil); a changed key prints the warning block through printError and
returns the non-nil KeyError to the caller. -/
def checkHostKey (hostname : String) (key : PublicKey) (knownHostsFile : String)
    (records : List HostKeyRecord) (contents : Option (List Char)) (termAvail : Bool) :
    CheckResult :=
  match contents with
  | none => ⟨false, none, []⟩
  | some _ =>
    match classifyKey records hostname key with
    | .matched => ⟨true, none, []⟩
    | .unknown => ⟨false, none, []⟩
    | .changed =>
      ⟨false, some keyMismatchError,
        [printErrorOutput termAvail
          (changedKeyHead key knownHostsFile ++
            changedKeyTail key (wantKeys records hostname))]⟩

/-! ### The interactive prompt loop (lines 316-333 of the source) -/

/-- strings.ToLower as applied to each answer line: case folding on the
line's characters (the decisive answers are the ASCII words "yes"/"no"). -/
def strToLower (s : String) : String := ⟨s.data.map Char.toLower⟩

/-- The read-line loop: lower-case the input; "yes" accepts, "no" refuses,
anything else prints the re-prompt and reads again; exhausted input is a
ReadLine error.  Returns the re-prompts emitted and the decision (none =
read error). -/
def promptLoop : List String → List Output × Option Bool
  | [] => ([], none)
  | line :: rest =>
    if strToLower line = "yes" then ([], some true)
    else if strToLower line = "no" then ([], some false)
    else
      let r := promptLoop rest
      (Output.term pleaseTypeMsg :: r.1, r.2)

/-! ### The persistence sequence (lines 341-368 of the source) -/

/-- Result of the persistence sequence: the error message if it failed, the
file contents afterwards, and the operation trace. -/
structure PersistResult where
  err : Option String
  contents : Option (List Char)
  ops : List FsOp
deriving DecidableEq

/-- Lines 341-368 of the source: skip entirely for the discard sink;
otherwise acquire the cross-process lock (released on every exit path by
the deferred release), read the current contents (a missing file reads as
empty), build the appended contents, and atomically replace the file
(write-temp + rename).  The lockOk/readOk/writeOk flags inject the three
possible failures (lock timeout, read I/O error, write I/O error). -/
def persistKey (knownHostsFile : String) (line : List Char) (contents : Option (List Char))
    (lockOk readOk writeOk : Bool) : PersistResult :=
  if knownHostsFile = osDevNull then ⟨none, contents, []⟩
  else if !lockOk then ⟨some lockErrMsg, contents, [.acquireFail lockName]⟩
  else if !readOk then
    ⟨some readErrMsg, contents,
      [.acquireLock lockName, .readFile knownHostsFile, .releaseLock lockName]⟩
  else
    let newData := appendRecord (contents.getD []) line
    if !writeOk then
      ⟨some writeErrMsg, contents,
        [.acquireLock lockName, .readFile knownHostsFile,
          .writeFile (tmpPath knownHostsFile) newData, .releaseLock lockName]⟩
    else
      ⟨none, some newData,
        [.acquireLock lockName, .readFile knownHostsFile,
          .writeFile (tmpPath knownHostsFile) newData,
          .rename (tmpPath knownHostsFile) knownHostsFile, .releaseLock lockName]⟩

/-- Lines 341-375 of the source: persist the accepted key, then, when
warnAdd is set (the StrictHostChecksNo path), print the permanently-added
warning; a persistence failure is surfaced as the callback's error. -/
def finishAccept (knownHostsFile hostname : String) (key : PublicKey)
    (term : Option (List String)) (contents : Option (List Char))
    (lockOk readOk writeOk warnAdd : Bool) (outs : List Output) : CallbackResult :=
  let p := persistKey knownHostsFile (knownhostsLine hostname key) contents lockOk readOk writeOk
  match p.err with
  | some e => ⟨.reject e, contents, outs, p.ops⟩
  | none =>
    if warnAdd then
      ⟨.accept, p.contents,
        outs ++ [printErrorOutput term.isSome (permanentlyAddedMsg hostname key.keyType)],
        p.ops⟩
    else ⟨.accept, p.contents, outs, p.ops⟩

/-- Lines 297-333 of the source: the Default/Ask branch.  Without a
terminal the authenticity message goes to the log and the callback rejects;
with a terminal the message and question are printed and the read-line loop
decides. -/
def askUser (knownHostsFile hostname remoteAddr : String) (key : PublicKey)
    (term : Option (List String)) (contents : Option (List Char))
    (lockOk readOk writeOk : Bool) (outs : List Output) : CallbackResult :=
  let message := authenticityMessage hostname remoteAddr key
  match term with
  | none => ⟨.reject notTermErrMsg, contents, outs ++ [.log message], []⟩
  | some inputs =>
    let promptOuts := Output.term (message ++ continuePrompt) :: (promptLoop inputs).1
    match (promptLoop inputs).2 with
    | none => ⟨.reject eofErrMsg, contents, outs ++ promptOuts, []⟩
    | some false => ⟨.reject verificationFailedMsg, contents, outs ++ promptOuts, []⟩
    | some true =>
      finishAccept knownHostsFile hostname key term contents lockOk readOk writeOk false
        (outs ++ promptOuts)

/-- Line 260-266 of the source: the per-connection file, or the
process-wide default when unset. -/
def resolveKnownHostsFile (cfg : Config) : String :=
  if cfg.knownHostsFile = "" then cfg.goCryptoKnownHostsFile else cfg.knownHostsFile

/-- hostKeyCallback (lines 259-376 of the source): resolve the known-hosts
path (rejecting when none is configured), run checkHostKey (propagating its
error or accepting a match), then branch on the strictness policy —
StrictHostChecksNo appends silently and warns, Default/Ask prompt through
the terminal, and every other value (strict checking) rejects. -/
def hostKeyCallback (cfg : Config) (hostname remoteAddr : String) (key : PublicKey)
    (term : Option (List String)) (records : List HostKeyRecord)
    (contents : Option (List Char)) (lockOk readOk writeOk : Bool) : CallbackResult :=
  let knownHostsFile := resolveKnownHostsFile cfg
  if knownHostsFile = "" then ⟨.reject configErrMsg, contents, [], []⟩
  else
    let chk := checkHostKey hostname key knownHostsFile records contents term.isSome
    match chk.err with
    | some e => ⟨.reject e, contents, chk.outputs, []⟩
    | none =>
      if chk.matched then ⟨.accept, contents, chk.outputs, []⟩
      else
        match cfg.strictHostKeyChecking with
        | .no =>
          finishAccept knownHostsFile hostname key term contents lockOk readOk writeOk true
            chk.outputs
        | .default =>
          askUser knownHostsFile hostname remoteAddr key term contents lockOk readOk writeOk
            chk.outputs
        | .ask =>
          askUser knownHostsFile hostname remoteAddr key term contents lockOk readOk writeOk
            chk.outputs
        | .yes => ⟨.reject (strictErrMsg key.keyType hostname), contents, chk.outputs, []⟩

/-! ### The process-wide default path accessors (lines 486-505 of the
source) -/

/-- The mutex-guarded package-level state holding the default known-hosts
path. -/
structure SSHGlobals where
  goCryptoKnownHostsFile : String
deriving DecidableEq

/-- GoCryptoKnownHostsFile: read the default known-hosts path under the
mutex. -/
def GoCryptoKnownHostsFile (g : SSHGlobals) : String :=
  g.goCryptoKnownHostsFile

/-- SetGoCryptoKnownHostsFile: replace the default known-hosts path under
the mutex. -/
def SetGoCryptoKnownHostsFile (file : String) (g : SSHGlobals) : SSHGlobals :=
  { g with goCryptoKnownHostsFile := file }

/-! ### Supporting lemmas about line splitting and the append sequence -/

theorem splitLines_ne_nil (cs : List Char) : splitLines cs ≠ [] := by
  cases cs with
  | nil => simp [splitLines]
  | cons c rest =>
    simp only [splitLines]
    by_cases h : c = '\n' <;> simp [h]

theorem splitLines_cons_newline (rest : List Char) :
    splitLines ('\n' :: rest) = [] :: splitLines rest := by
  simp [splitLines]

theorem splitLines_cons_of_ne (c : Char) (rest : List Char) (h : c ≠ '\n') :
    splitLines (c :: rest) = (c :: (splitLines rest).headD []) :: (splitLines rest).tail := by
  simp [splitLines, h]

theorem splitLines_append_newline (cs : List Char) :
    splitLines (cs ++ ['\n']) = splitLines cs ++ [[]] := by
  induction cs with
  | nil => simp [splitLines]
  | cons c rest ih =>
    by_cases h : c = '\n'
    · subst h
      rw [List.cons_append, splitLines_cons_newline, splitLines_cons_newline, ih,
        List.cons_append]
    · rw [List.cons_append, splitLines_cons_of_ne _ _ h, splitLines_cons_of_ne _ _ h, ih]
      obtain ⟨s, S, hS⟩ : ∃ s S, splitLines rest = s :: S := by
        cases hsp : splitLines rest with
        | nil => exact absurd hsp (splitLines_ne_nil rest)
        | cons s S => exact ⟨s, S, rfl⟩
      rw [hS]
      simp

theorem splitLines_nlfree_append (u v : List Char) (h : ∀ c ∈ u, c ≠ '\n') :
    splitLines (u ++ '\n' :: v) = u :: splitLines v := by
  induction u with
  | nil => simp [splitLines_cons_newline]
  | cons c u ih =>
    have hc : c ≠ '\n' := h c (List.mem_cons_self c u)
    rw [List.cons_append, splitLines_cons_of_ne _ _ hc,
      ih fun x hx => h x (List.mem_cons_of_mem _ hx)]
    simp

theorem splitLines_length_two_le (c : List Char) (h : c.getLast? = some '\n') :
    2 ≤ (splitLines c).length := by
  induction c with
  | nil => simp at h
  | cons ch c ih =>
    cases c with
    | nil =>
      have hch : ch = '\n' := by simpa using h
      subst hch
      simp [splitLines_cons_newline, splitLines]
    | cons ch2 c2 =>
      have h' : (ch2 :: c2).getLast? = some '\n' := by rwa [List.getLast?_cons_cons] at h
      have ih' := ih h'
      by_cases hc : ch = '\n'
      · subst hc
        rw [splitLines_cons_newline]
        simp only [List.length_cons]
        omega
      · rw [splitLines_cons_of_ne _ _ hc]
        simp only [List.length_cons, List.length_tail]
        omega

theorem splitLines_nlterm_append (c v : List Char) (h : c = [] ∨ c.getLast? = some '\n') :
    splitLines (c ++ v) = (splitLines c).dropLast ++ splitLines v := by
  rcases h with h | h
  · subst h; simp [splitLines]
  · induction c with
    | nil => simp at h
    | cons ch c ih =>
      cases c with
      | nil =>
        have hch : ch = '\n' := by simpa using h
        subst hch
        rw [List.cons_append, splitLines_cons_newline]
        simp [splitLines_cons_newline, splitLines]
      | cons ch2 c2 =>
        have h' : (ch2 :: c2).getLast? = some '\n' := by rwa [List.getLast?_cons_cons] at h
        have ih' := ih h'
        by_cases hc : ch = '\n'
        · subst hc
          rw [List.cons_append, splitLines_cons_newline, ih', splitLines_cons_newline,
            List.dropLast_cons_of_ne_nil (splitLines_ne_nil _), List.cons_append]
        · have hlen := splitLines_length_two_le _ h'
          obtain ⟨s, S, hS⟩ : ∃ s S, splitLines (ch2 :: c2) = s :: S := by
            cases hsp : splitLines (ch2 :: c2) with
            | nil => exact absurd hsp (splitLines_ne_nil _)
            | cons s S => exact ⟨s, S, rfl⟩
          have hS' : S ≠ [] := by
            intro hS0
            rw [hS, hS0] at hlen
            simp at hlen
          rw [List.cons_append, splitLines_cons_of_ne _ _ hc, ih', splitLines_cons_of_ne _ _ hc,
            hS, List.dropLast_cons_of_ne_nil hS']
          simp only [List.headD_cons, List.tail_cons, List.cons_append]
          rw [List.dropLast_cons_of_ne_nil hS']
          simp

theorem ensureTrailingNewline_eq_self (c : List Char) (h : c = [] ∨ c.getLast? = some '\n') :
    ensureTrailingNewline c = c := by
  rcases h with h | h <;> simp [ensureTrailingNewline, h]

theorem ensureTrailingNewline_eq_concat (c : List Char) (h1 : c ≠ [])
    (h2 : c.getLast? ≠ some '\n') : ensureTrailingNewline c = c ++ ['\n'] := by
  simp [ensureTrailingNewline, h1, h2]

theorem ensureTrailingNewline_nlterm (c : List Char) :
    ensureTrailingNewline c = [] ∨ (ensureTrailingNewline c).getLast? = some '\n' := by
  by_cases h1 : c = []
  · left; simp [ensureTrailingNewline, h1]
  · by_cases h2 : c.getLast? = some '\n'
    · right; rw [ensureTrailingNewline_eq_self c (Or.inr h2)]; exact h2
    · right; rw [ensureTrailingNewline_eq_concat c h1 h2]; simp

theorem splitLines_appendRecord (c l : List Char) (h : ∀ ch ∈ l, ch ≠ '\n') :
    splitLines (appendRecord c l) =
      (splitLines (ensureTrailingNewline c)).dropLast ++ [l, []] := by
  unfold appendRecord
  rw [List.append_assoc, splitLines_nlterm_append _ _ (ensureTrailingNewline_nlterm c)]
  have h2 : splitLines (l ++ ['\n']) = [l, []] := by
    have := splitLines_nlfree_append l [] h
    simpa [splitLines] using this
  rw [h2]

theorem appendRecord_getLast (c l : List Char) :
    (appendRecord c l).getLast? = some '\n' := by
  unfold appendRecord
  rw [List.getLast?_concat]

theorem splitLines_foldl_appendRecord (ls : List (List Char)) :
    ∀ c, ls ≠ [] → (∀ l ∈ ls, ∀ ch ∈ l, ch ≠ '\n') →
      splitLines (ls.foldl appendRecord c) =
        (splitLines (ensureTrailingNewline c)).dropLast ++ ls ++ [[]] := by
  induction ls with
  | nil => intro c h _; exact absurd rfl h
  | cons l ls ih =>
    intro c _ hwf
    have hl := hwf l (List.mem_cons_self _ _)
    have hwf' : ∀ x ∈ ls, ∀ ch ∈ x, ch ≠ '\n' := fun x hx => hwf x (List.mem_cons_of_mem _ hx)
    rw [List.foldl_cons]
    by_cases hne2 : ls = []
    · subst hne2
      rw [List.foldl_nil, splitLines_appendRecord c l hl]
      simp
    · rw [ih (appendRecord c l) hne2 hwf',
        ensureTrailingNewline_eq_self _ (Or.inr (appendRecord_getLast c l)),
        splitLines_appendRecord c l hl,
        List.dropLast_append_of_ne_nil _ (by simp : ([l, []] : List (List Char)) ≠ [])]
      simp

theorem not_mem_dropLast_splitLines_ensure (c0 l : List Char) (hne : l ≠ [])
    (h : l ∉ splitLines c0) : l ∉ (splitLines (ensureTrailingNewline c0)).dropLast := by
  intro hmem
  have hmem2 : l ∈ splitLines (ensureTrailingNewline c0) :=
    (List.dropLast_sublist _).subset hmem
  by_cases hc : c0 ≠ [] ∧ c0.getLast? ≠ some '\n'
  · rw [ensureTrailingNewline_eq_concat c0 hc.1 hc.2, splitLines_append_newline] at hmem2
    rcases List.mem_append.mp hmem2 with h1 | h1
    · exact h h1
    · simp at h1; exact hne h1
  · have : c0 = [] ∨ c0.getLast? = some '\n' := by
      by_cases h1 : c0 = []
      · exact Or.inl h1
      · right
        by_contra h2
        exact hc ⟨h1, h2⟩
    rw [ensureTrailingNewline_eq_self c0 this] at hmem2
    exact h hmem2

/-! ### Supporting lemmas about the serialized record line -/

theorem b64char_mem (n : Nat) : b64char n ∈ base64Chars := by
  unfold b64char
  have h : n % 64 < base64Chars.length := by
    have h64 : base64Chars.length = 64 := rfl
    rw [h64]
    exact Nat.mod_lt _ (by norm_num)
  rw [dif_pos h]
  exact base64Chars.get_mem _ _

theorem b64char_ne_newline (n : Nat) : b64char n ≠ '\n' := by
  intro hEq
  have hmem := b64char_mem n
  rw [hEq] at hmem
  exact absurd hmem (by decide)

theorem newline_not_mem_base64Encode : ∀ bs : List Nat, '\n' ∉ base64Encode bs
  | [] => by simp [base64Encode]
  | [a] => by
    intro hmem
    simp only [base64Encode, List.mem_cons, List.not_mem_nil, or_false] at hmem
    rcases hmem with hEq | hEq | hEq | hEq
    · exact b64char_ne_newline _ hEq.symm
    · exact b64char_ne_newline _ hEq.symm
    · exact absurd hEq (by decide)
    · exact absurd hEq (by decide)
  | [a, b] => by
    intro hmem
    simp only [base64Encode, List.mem_cons, List.not_mem_nil, or_false] at hmem
    rcases hmem with hEq | hEq | hEq | hEq
    · exact b64char_ne_newline _ hEq.symm
    · exact b64char_ne_newline _ hEq.symm
    · exact b64char_ne_newline _ hEq.symm
    · exact absurd hEq (by decide)
  | a :: b :: c :: rest => by
    intro hmem
    simp only [base64Encode, List.mem_cons] at hmem
    rcases hmem with hEq | hEq | hEq | hEq | hmem
    · exact b64char_ne_newline _ hEq.symm
    · exact b64char_ne_newline _ hEq.symm
    · exact b64char_ne_newline _ hEq.symm
    · exact b64char_ne_newline _ hEq.symm
    · exact newline_not_mem_base64Encode rest hmem

theorem knownhostsLine_ne_nil (hn : String) (key : PublicKey) :
    knownhostsLine hn key ≠ [] := by
  simp [knownhostsLine]

theorem knownhostsLine_getLast_ne_newline (hn : String) (key : PublicKey) :
    (knownhostsLine hn key).getLast? ≠ some '\n' := by
  unfold knownhostsLine
  cases hb : base64Encode key.raw with
  | nil =>
    rw [List.append_nil, List.getLast?_concat]
    simp
  | cons x xs =>
    rw [List.getLast?_append_of_ne_nil _ (by simp),
      List.getLast?_eq_getLast_of_ne_nil (by simp)]
    intro hEq
    injection hEq with hEq
    have hmem : (x :: xs).getLast (by simp) ∈ x :: xs := List.getLast_mem _
    rw [hEq, ← hb] at hmem
    exact newline_not_mem_base64Encode key.raw hmem

theorem knownhostsLine_nlfree (hn : String) (key : PublicKey)
    (h1 : '\n' ∉ hn.toList) (h2 : '\n' ∉ key.keyType.toList) :
    ∀ ch ∈ knownhostsLine hn key, ch ≠ '\n' := by
  intro ch hmem hEq
  subst hEq
  unfold knownhostsLine at hmem
  rcases List.mem_append.mp hmem with hmem | hx
  · rcases List.mem_append.mp hmem with hmem | hx
    · rcases List.mem_append.mp hmem with hmem | hx
      · rcases List.mem_append.mp hmem with hx | hx
        · exact h1 hx
        · exact absurd (List.mem_singleton.mp hx) (by decide)
      · exact h2 hx
    · exact absurd (List.mem_singleton.mp hx) (by decide)
  · exact newline_not_mem_base64Encode key.raw hx

theorem count_eq_one_of_nodup_mem {α : Type} [BEq α] [LawfulBEq α] (l : List α) (a : α)
    (d : l.Nodup) (h : a ∈ l) : l.count a = 1 := by
  induction l with
  | nil => simp at h
  | cons x xs ih =>
    rw [List.count_cons]
    rcases List.mem_cons.mp h with hEq | hmem
    · subst hEq
      have hnm : a ∉ xs := (List.nodup_cons.mp d).1
      simp [List.count_eq_zero.mpr hnm]
    · have hne : ¬(x == a) = true := by
        intro hb
        have hxa : x = a := eq_of_beq hb
        subst hxa
        exact (List.nodup_cons.mp d).1 hmem
      rw [ih (List.nodup_cons.mp d).2 hmem, if_neg hne]

theorem tmpPath_ne (path : String) : tmpPath path ≠ path := by
  intro h
  have h2 := congrArg String.length h
  simp only [tmpPath, String.length_append] at h2
  exact absurd (by omega : (".tmp" : String).length = 0) (by decide)

/-! ### Claim C10 -/

/-- Claim C10: calling SetGoCryptoKnownHostsFile with any string and then
GoCryptoKnownHostsFile returns exactly that string — the accessor pair for the
process-wide default known-hosts path round-trips, the getter returning the
most recently set value. -/
theorem knownHostsFile_get_set_roundtrip (f : String) (g : SSHGlobals) :
    GoCryptoKnownHostsFile (SetGoCryptoKnownHostsFile f g) = f := rfl

/-! ### Claim C9 -/

/-- Claim C9: with no known-hosts path configured (per-connection field and
process-wide default both empty) and no terminal available, every verification
call rejects with the configuration-error message, leaving the store untouched
and emitting nothing — independently of the store state, so before any key
classification takes place. -/
theorem noConfig_rejects_beforeClassification (cfg : Config)
    (hostname remoteAddr : String) (key : PublicKey) (records : List HostKeyRecord)
    (contents : Option (List Char)) (lockOk readOk writeOk : Bool)
    (h1 : cfg.knownHostsFile = "") (h2 : cfg.goCryptoKnownHostsFile = "") :
    hostKeyCallback cfg hostname remoteAddr key none records contents lockOk readOk writeOk
      = ⟨.reject configErrMsg, contents, [], []⟩ := by
  simp [hostKeyCallback, resolveKnownHostsFile, h1, h2]

/-- Witness for C9 at a concrete input. -/
theorem noConfig_rejects_beforeClassification_witness :
    (⟨"", "", .default⟩ : Config).knownHostsFile = "" ∧
    (⟨"", "", .default⟩ : Config).goCryptoKnownHostsFile = "" ∧
    hostKeyCallback ⟨"", "", .default⟩ "example.com" "addr" ⟨"ssh-rsa", [1], "fp"⟩ none
        [] (some ['x']) true true true = ⟨.reject configErrMsg, some ['x'], [], []⟩ :=
  ⟨rfl, rfl,
    noConfig_rejects_beforeClassification _ _ _ _ _ _ _ _ _ rfl rfl⟩

/-! ### Claim C8 -/

/-- Claim C8: when the store contains a record with the offered hostname, key
type and key bytes, verification accepts immediately with no output, no
file-system or lock operation, and unchanged file contents — under every
strictness policy, terminal state and failure-injection flags. -/
theorem matched_accepts_noMutation (cfg : Config) (hostname remoteAddr : String)
    (key : PublicKey) (term : Option (List String)) (records : List HostKeyRecord)
    (r : HostKeyRecord) (c : List Char) (lockOk readOk writeOk : Bool)
    (hr : r ∈ records) (hh : r.hostname = hostname) (ht : r.keyType = key.keyType)
    (hk : r.keyBytes = key.raw) (hcfg : resolveKnownHostsFile cfg ≠ "") :
    hostKeyCallback cfg hostname remoteAddr key term records (some c) lockOk readOk writeOk
      = ⟨.accept, some c, [], []⟩ := by
  have hcl : classifyKey records hostname key = .matched := by
    unfold classifyKey
    rw [if_pos]
    exact List.any_eq_true.mpr ⟨r, hr, by simp [recordMatches, hh, ht, hk]⟩
  simp [hostKeyCallback, checkHostKey, hcl, hcfg]

/-- Witness for C8 at a concrete input. -/
theorem matched_accepts_noMutation_witness :
    (⟨"example.com", "ssh-rsa", [1, 2, 3], "kh", 1⟩ : HostKeyRecord) ∈
        ([⟨"example.com", "ssh-rsa", [1, 2, 3], "kh", 1⟩] : List HostKeyRecord) ∧
    resolveKnownHostsFile ⟨"kh", "", .yes⟩ ≠ "" ∧
    hostKeyCallback ⟨"kh", "", .yes⟩ "example.com" "addr" ⟨"ssh-rsa", [1, 2, 3], "fp"⟩ none
        [⟨"example.com", "ssh-rsa", [1, 2, 3], "kh", 1⟩] (some ['x']) true true true
      = ⟨.accept, some ['x'], [], []⟩ :=
  ⟨by decide, by decide,
    matched_accepts_noMutation ⟨"kh", "", .yes⟩ "example.com" "addr"
      ⟨"ssh-rsa", [1, 2, 3], "fp"⟩ none [⟨"example.com", "ssh-rsa", [1, 2, 3], "kh", 1⟩]
      ⟨"example.com", "ssh-rsa", [1, 2, 3], "kh", 1⟩ ['x'] true true true
      (by decide) rfl rfl rfl (by decide)⟩

/-! ### Claim C6 -/

/-- Claim C6: under the Default/Ask policy, when the offered key is not matched
by the store and no interactive terminal is available, the verifier always
rejects with an error (never silently accepts, never blocks) and neither the
store contents nor the file system are touched. -/
theorem askPolicy_noTerminal_rejects (cfg : Config) (hostname remoteAddr : String)
    (key : PublicKey) (records : List HostKeyRecord) (contents : Option (List Char))
    (lockOk readOk writeOk : Bool)
    (hpol : cfg.strictHostKeyChecking = .default ∨ cfg.strictHostKeyChecking = .ask)
    (hnm : contents = none ∨ classifyKey records hostname key ≠ .matched) :
    (∃ msg, (hostKeyCallback cfg hostname remoteAddr key none records contents lockOk readOk
        writeOk).result = .reject msg) ∧
    (hostKeyCallback cfg hostname remoteAddr key none records contents lockOk readOk
        writeOk).contents = contents ∧
    (hostKeyCallback cfg hostname remoteAddr key none records contents lockOk readOk
        writeOk).ops = [] := by
  by_cases hcfg : resolveKnownHostsFile cfg = ""
  · refine ⟨⟨configErrMsg, ?_⟩, ?_, ?_⟩ <;> simp [hostKeyCallback, hcfg]
  · cases contents with
    | none =>
      rcases hpol with hp | hp <;>
        (refine ⟨⟨notTermErrMsg, ?_⟩, ?_, ?_⟩ <;>
          simp [hostKeyCallback, checkHostKey, askUser, hcfg, hp])
    | some c =>
      rcases hnm with hn | hn
      · exact absurd hn (by simp)
      · cases hclass : classifyKey records hostname key with
        | matched => exact absurd hclass hn
        | unknown =>
          rcases hpol with hp | hp <;>
            (refine ⟨⟨notTermErrMsg, ?_⟩, ?_, ?_⟩ <;>
              simp [hostKeyCallback, checkHostKey, askUser, hcfg, hp, hclass])
        | changed =>
          refine ⟨⟨keyMismatchError, ?_⟩, ?_, ?_⟩ <;>
            simp [hostKeyCallback, checkHostKey, hcfg, hclass]

/-- Witness for C6 at a concrete input. -/
theorem askPolicy_noTerminal_rejects_witness :
    ((⟨"kh", "", .default⟩ : Config).strictHostKeyChecking = .default ∨
      (⟨"kh", "", .default⟩ : Config).strictHostKeyChecking = .ask) ∧
    ((some ['x'] : Option (List Char)) = none ∨
      classifyKey [] "example.com" ⟨"ssh-rsa", [1], "fp"⟩ ≠ .matched) ∧
    ((∃ msg, (hostKeyCallback ⟨"kh", "", .default⟩ "example.com" "addr" ⟨"ssh-rsa", [1], "fp"⟩
        none [] (some ['x']) true true true).result = .reject msg) ∧
      (hostKeyCallback ⟨"kh", "", .default⟩ "example.com" "addr" ⟨"ssh-rsa", [1], "fp"⟩
        none [] (some ['x']) true true true).contents = some ['x'] ∧
      (hostKeyCallback ⟨"kh", "", .default⟩ "example.com" "addr" ⟨"ssh-rsa", [1], "fp"⟩
        none [] (some ['x']) true true true).ops = []) :=
  ⟨Or.inl rfl, Or.inr (by decide),
    askPolicy_noTerminal_rejects _ _ _ _ _ _ _ _ _ (Or.inl rfl) (Or.inr (by decide))⟩

/-! ### Claim C4 -/

/-- Claim C4 fails as stated at this input: under the Strict policy, an offered
triple absent from the store because the hostname is present with different key
bytes is rejected with the key-mismatch error — an error that does not name the
key type, the hostname or strict checking — and not with the strict-checking
message. -/
theorem strict_changedKey_cex :
    (hostKeyCallback ⟨"kh", "", .yes⟩ "example.com" "addr" ⟨"ssh-rsa", [9], "fp"⟩ none
        [⟨"example.com", "ssh-rsa", [1], "kh", 1⟩] (some ['x']) true true true).result
      = .reject keyMismatchError ∧
    keyMismatchError ≠ strictErrMsg "ssh-rsa" "example.com" ∧
    (hostKeyCallback ⟨"kh", "", .yes⟩ "example.com" "addr" ⟨"ssh-rsa", [9], "fp"⟩ none
        [⟨"example.com", "ssh-rsa", [1], "kh", 1⟩] (some ['x']) true true true).contents
      = some ['x'] := by
  exact ⟨by decide, by decide, by decide⟩

/-- Claim C4 amended: under the Strict policy any offered key not matched by the
store is rejected regardless of terminal availability, with no store mutation
and no file-system operation; the error is the strict-checking message naming
the key type and hostname when the store holds no record for the hostname (or
the file is missing), and the key-mismatch error when records for the hostname
exist with different keys. -/
theorem strict_absent_rejects (cfg : Config) (hostname remoteAddr : String)
    (key : PublicKey) (term : Option (List String)) (records : List HostKeyRecord)
    (contents : Option (List Char)) (lockOk readOk writeOk : Bool)
    (hpol : cfg.strictHostKeyChecking = .yes) (hcfg : resolveKnownHostsFile cfg ≠ "")
    (habs : contents = none ∨ classifyKey records hostname key ≠ .matched) :
    ∃ msg outs,
      hostKeyCallback cfg hostname remoteAddr key term records contents lockOk readOk writeOk
        = ⟨.reject msg, contents, outs, []⟩ ∧
      ((contents = none ∨ classifyKey records hostname key = .unknown) →
        msg = strictErrMsg key.keyType hostname ∧ outs = []) ∧
      (classifyKey records hostname key = .changed → contents ≠ none →
        msg = keyMismatchError) := by
  cases contents with
  | none =>
    refine ⟨strictErrMsg key.keyType hostname, [], ?_, fun _ => ⟨rfl, rfl⟩, ?_⟩
    · simp [hostKeyCallback, checkHostKey, hcfg, hpol]
    · intro _ hne; exact absurd rfl hne
  | some c =>
    rcases habs with hn | hn
    · exact absurd hn (by simp)
    · cases hclass : classifyKey records hostname key with
      | matched => exact absurd hclass hn
      | unknown =>
        refine ⟨strictErrMsg key.keyType hostname, [], ?_, fun _ => ⟨rfl, rfl⟩, ?_⟩
        · simp [hostKeyCallback, checkHostKey, hcfg, hpol, hclass]
        · intro hch _
          exact absurd hch (by decide)
      | changed =>
        refine ⟨keyMismatchError,
          [printErrorOutput term.isSome
            (changedKeyHead key (resolveKnownHostsFile cfg) ++
              changedKeyTail key (wantKeys records hostname))], ?_, ?_, fun _ _ => rfl⟩
        · simp [hostKeyCallback, checkHostKey, hcfg, hclass]
        · intro hun
          rcases hun with hx | hx
          · exact absurd hx (by simp)
          · exact absurd hx (by decide)

/-- Witness for the amended C4 at a concrete input. -/
theorem strict_absent_rejects_witness :
    (⟨"kh", "", .yes⟩ : Config).strictHostKeyChecking = .yes ∧
    resolveKnownHostsFile ⟨"kh", "", .yes⟩ ≠ "" ∧
    ((some ['x'] : Option (List Char)) = none ∨
      classifyKey [] "example.com" ⟨"ssh-rsa", [1], "fp"⟩ ≠ .matched) ∧
    (∃ msg outs,
      hostKeyCallback ⟨"kh", "", .yes⟩ "example.com" "addr" ⟨"ssh-rsa", [1], "fp"⟩ none
          [] (some ['x']) true true true
        = ⟨.reject msg, some ['x'], outs, []⟩ ∧
      (((some ['x'] : Option (List Char)) = none ∨
          classifyKey [] "example.com" ⟨"ssh-rsa", [1], "fp"⟩ = .unknown) →
        msg = strictErrMsg "ssh-rsa" "example.com" ∧ outs = []) ∧
      (classifyKey [] "example.com" ⟨"ssh-rsa", [1], "fp"⟩ = .changed →
        (some ['x'] : Option (List Char)) ≠ none → msg = keyMismatchError)) :=
  ⟨rfl, by decide, Or.inr (by decide),
    strict_absent_rejects _ _ _ _ _ _ _ _ _ _ rfl (by decide) (Or.inr (by decide))⟩

/-! ### Claim C2 -/

/-- Claim C2: every append of a newly accepted host key succeeds with new
contents equal to the existing data followed by the record; the appended record
ends with exactly one newline (the file's last byte is a newline and the byte
before it is not); a separating newline is inserted exactly when the existing
data is non-empty and lacks a trailing newline; and the file is replaced only
through a write to a temporary path followed by a rename over the target —
never a direct write to the target path. -/
theorem appendedRecord_newline_atomic (knownHostsFile hostname : String) (key : PublicKey)
    (contents : Option (List Char)) (hdev : knownHostsFile ≠ osDevNull) :
    (persistKey knownHostsFile (knownhostsLine hostname key) contents true true true).err
      = none ∧
    (persistKey knownHostsFile (knownhostsLine hostname key) contents true true true).contents
      = some (appendRecord (contents.getD []) (knownhostsLine hostname key)) ∧
    (appendRecord (contents.getD []) (knownhostsLine hostname key)).getLast? = some '\n' ∧
    (appendRecord (contents.getD []) (knownhostsLine hostname key)).dropLast.getLast?
      ≠ some '\n' ∧
    (contents.getD [] = [] ∨ (contents.getD []).getLast? = some '\n' →
      appendRecord (contents.getD []) (knownhostsLine hostname key)
        = contents.getD [] ++ knownhostsLine hostname key ++ ['\n']) ∧
    (contents.getD [] ≠ [] → (contents.getD []).getLast? ≠ some '\n' →
      appendRecord (contents.getD []) (knownhostsLine hostname key)
        = contents.getD [] ++ '\n' :: (knownhostsLine hostname key ++ ['\n'])) ∧
    (persistKey knownHostsFile (knownhostsLine hostname key) contents true true true).ops
      = [.acquireLock lockName, .readFile knownHostsFile,
          .writeFile (tmpPath knownHostsFile)
            (appendRecord (contents.getD []) (knownhostsLine hostname key)),
          .rename (tmpPath knownHostsFile) knownHostsFile, .releaseLock lockName] ∧
    (∀ cs, FsOp.writeFile knownHostsFile cs ∉
      (persistKey knownHostsFile (knownhostsLine hostname key) contents true true true).ops) := by
  refine ⟨by simp [persistKey, hdev], by simp [persistKey, hdev],
    appendRecord_getLast _ _, ?_, ?_, ?_, by simp [persistKey, hdev], ?_⟩
  · unfold appendRecord
    rw [List.dropLast_concat,
      List.getLast?_append_of_ne_nil _ (knownhostsLine_ne_nil hostname key)]
    exact knownhostsLine_getLast_ne_newline hostname key
  · intro h
    unfold appendRecord
    rw [ensureTrailingNewline_eq_self _ h]
  · intro h1 h2
    unfold appendRecord
    rw [ensureTrailingNewline_eq_concat _ h1 h2]
    simp
  · intro cs hmem
    rw [(by simp [persistKey, hdev] :
      (persistKey knownHostsFile (knownhostsLine hostname key) contents true true true).ops
        = [.acquireLock lockName, .readFile knownHostsFile,
            .writeFile (tmpPath knownHostsFile)
              (appendRecord (contents.getD []) (knownhostsLine hostname key)),
            .rename (tmpPath knownHostsFile) knownHostsFile,
            .releaseLock lockName])] at hmem
    simp only [List.mem_cons, List.not_mem_nil, or_false] at hmem
    rcases hmem with h | h | h | h | h
    · simp at h
    · simp at h
    · rw [FsOp.writeFile.injEq] at h
      exact tmpPath_ne _ h.1.symm
    · simp at h
    · simp at h

/-- Witness for C2 at a concrete input (existing file without a trailing
newline). -/
theorem appendedRecord_newline_atomic_witness :
    ("kh" : String) ≠ osDevNull ∧
    ((persistKey "kh" (knownhostsLine "h" ⟨"ssh-rsa", [1], "fp"⟩)
        (some ['o', 'l', 'd']) true true true).err = none ∧
    (persistKey "kh" (knownhostsLine "h" ⟨"ssh-rsa", [1], "fp"⟩)
        (some ['o', 'l', 'd']) true true true).contents
      = some (appendRecord ((some ['o', 'l', 'd'] : Option (List Char)).getD [])
          (knownhostsLine "h" ⟨"ssh-rsa", [1], "fp"⟩)) ∧
    (appendRecord ((some ['o', 'l', 'd'] : Option (List Char)).getD [])
        (knownhostsLine "h" ⟨"ssh-rsa", [1], "fp"⟩)).getLast? = some '\n' ∧
    (appendRecord ((some ['o', 'l', 'd'] : Option (List Char)).getD [])
        (knownhostsLine "h" ⟨"ssh-rsa", [1], "fp"⟩)).dropLast.getLast? ≠ some '\n' ∧
    ((some ['o', 'l', 'd'] : Option (List Char)).getD [] = [] ∨
        ((some ['o', 'l', 'd'] : Option (List Char)).getD []).getLast? = some '\n' →
      appendRecord ((some ['o', 'l', 'd'] : Option (List Char)).getD [])
          (knownhostsLine "h" ⟨"ssh-rsa", [1], "fp"⟩)
        = (some ['o', 'l', 'd'] : Option (List Char)).getD []
            ++ knownhostsLine "h" ⟨"ssh-rsa", [1], "fp"⟩ ++ ['\n']) ∧
    ((some ['o', 'l', 'd'] : Option (List Char)).getD [] ≠ [] →
        ((some ['o', 'l', 'd'] : Option (List Char)).getD []).getLast? ≠ some '\n' →
      appendRecord ((some ['o', 'l', 'd'] : Option (List Char)).getD [])
          (knownhostsLine "h" ⟨"ssh-rsa", [1], "fp"⟩)
        = (some ['o', 'l', 'd'] : Option (List Char)).getD []
            ++ '\n' :: (knownhostsLine "h" ⟨"ssh-rsa", [1], "fp"⟩ ++ ['\n'])) ∧
    (persistKey "kh" (knownhostsLine "h" ⟨"ssh-rsa", [1], "fp"⟩)
        (some ['o', 'l', 'd']) true true true).ops
      = [.acquireLock lockName, .readFile "kh",
          .writeFile (tmpPath "kh")
            (appendRecord ((some ['o', 'l', 'd'] : Option (List Char)).getD [])
              (knownhostsLine "h" ⟨"ssh-rsa", [1], "fp"⟩)),
          .rename (tmpPath "kh") "kh", .releaseLock lockName] ∧
    (∀ cs, FsOp.writeFile "kh" cs ∉
      (persistKey "kh" (knownhostsLine "h" ⟨"ssh-rsa", [1], "fp"⟩)
          (some ['o', 'l', 'd']) true true true).ops)) :=
  ⟨by decide, appendedRecord_newline_atomic "kh" "h" ⟨"ssh-rsa", [1], "fp"⟩
    (some ['o', 'l', 'd']) (by decide)⟩

/-! ### Claim C3 -/

/-- Claim C3: each append runs entirely inside the cross-process lock — the
trace of a successfully locked append begins with the lock acquisition (so the
file is read only afterwards) and ends with the release, on the success path
and on every failure exit path; consequently concurrent appends serialize into
some sequential order, and for any order of appends of distinct, well-formed
lines absent from the initial file the final file contains every appended line
exactly once. -/
theorem appends_serialized_allPresent (knownHostsFile : String) (line : List Char)
    (contents : Option (List Char)) (lockOk readOk writeOk : Bool)
    (c0 : List Char) (ls : List (List Char))
    (hdev : knownHostsFile ≠ osDevNull) (hlock : lockOk = true)
    (hnd : ls.Nodup) (hwf : ∀ l ∈ ls, l ≠ [] ∧ ∀ ch ∈ l, ch ≠ '\n')
    (habs : ∀ l ∈ ls, l ∉ splitLines c0) :
    (persistKey knownHostsFile line contents lockOk readOk writeOk).ops.head?
      = some (.acquireLock lockName) ∧
    (persistKey knownHostsFile line contents lockOk readOk writeOk).ops.getLast?
      = some (.releaseLock lockName) ∧
    ∀ l ∈ ls, (splitLines (ls.foldl appendRecord c0)).count l = 1 := by
  subst hlock
  refine ⟨?_, ?_, ?_⟩
  · cases readOk <;> cases writeOk <;> simp [persistKey, hdev]
  · cases readOk <;> cases writeOk <;> simp [persistKey, hdev]
  · intro l hl
    have hne : ls ≠ [] := by
      intro h0
      rw [h0] at hl
      simp at hl
    rw [splitLines_foldl_appendRecord ls c0 hne fun x hx => (hwf x hx).2,
      List.count_append, List.count_append,
      List.count_eq_zero.mpr (not_mem_dropLast_splitLines_ensure c0 l (hwf l hl).1 (habs l hl)),
      count_eq_one_of_nodup_mem ls l hnd hl,
      List.count_eq_zero.mpr (by simpa using (hwf l hl).1 :
        l ∉ ([[]] : List (List Char)))]

/-- Witness for C3 at a concrete input: two distinct lines appended over a
newline-terminated seed file. -/
theorem appends_serialized_allPresent_witness :
    ("kh" : String) ≠ osDevNull ∧ (true = true) ∧
    ([['a'], ['b']] : List (List Char)).Nodup ∧
    (∀ l ∈ ([['a'], ['b']] : List (List Char)), l ≠ [] ∧ ∀ ch ∈ l, ch ≠ '\n') ∧
    (∀ l ∈ ([['a'], ['b']] : List (List Char)), l ∉ splitLines ['s', '\n']) ∧
    ((persistKey "kh" ['z'] none true true true).ops.head?
        = some (.acquireLock lockName) ∧
      (persistKey "kh" ['z'] none true true true).ops.getLast?
        = some (.releaseLock lockName) ∧
      ∀ l ∈ ([['a'], ['b']] : List (List Char)),
        (splitLines (([['a'], ['b']] : List (List Char)).foldl appendRecord
          ['s', '\n'])).count l = 1) :=
  ⟨by decide, rfl, by decide, by decide, by decide,
    appends_serialized_allPresent "kh" ['z'] none true true true ['s', '\n'] [['a'], ['b']]
      (by decide) rfl (by decide) (by decide) (by decide)⟩

/-! ### Claim C1 -/

/-- Claim C1 fails as stated at this input: under the Default policy with a
terminal whose user would answer "yes", a Changed key is not taken through the
yes/no approval flow — the callback rejects with the key-mismatch error, does
not accept, leaves the store unchanged and performs no file operation. -/
theorem changedKey_promptAccept_cex :
    (hostKeyCallback ⟨"kh", "", .default⟩ "example.com" "addr" ⟨"ssh-rsa", [9], "fp"⟩
        (some ["yes"]) [⟨"example.com", "ssh-rsa", [1], "kh", 1⟩] (some ['x'])
        true true true).result ≠ .accept ∧
    (hostKeyCallback ⟨"kh", "", .default⟩ "example.com" "addr" ⟨"ssh-rsa", [9], "fp"⟩
        (some ["yes"]) [⟨"example.com", "ssh-rsa", [1], "kh", 1⟩] (some ['x'])
        true true true).result = .reject keyMismatchError ∧
    (hostKeyCallback ⟨"kh", "", .default⟩ "example.com" "addr" ⟨"ssh-rsa", [9], "fp"⟩
        (some ["yes"]) [⟨"example.com", "ssh-rsa", [1], "kh", 1⟩] (some ['x'])
        true true true).contents = some ['x'] ∧
    (hostKeyCallback ⟨"kh", "", .default⟩ "example.com" "addr" ⟨"ssh-rsa", [9], "fp"⟩
        (some ["yes"]) [⟨"example.com", "ssh-rsa", [1], "kh", 1⟩] (some ['x'])
        true true true).ops = [] := by
  exact ⟨by decide, by decide, by decide, by decide⟩

/-- Claim C1 amended: when the offered key is classified Changed, the verifier
prints the security warning block (to the terminal when available, else the
log) and then rejects with the key-mismatch error — under every policy and
every terminal input, without prompting, persisting, or touching the store; the
interactive yes/no approval flow is reached only for Unknown keys. -/
theorem changedKey_warnsThenRejects (cfg : Config) (hostname remoteAddr : String)
    (key : PublicKey) (term : Option (List String)) (records : List HostKeyRecord)
    (c : List Char) (lockOk readOk writeOk : Bool)
    (hcfg : resolveKnownHostsFile cfg ≠ "")
    (hcl : classifyKey records hostname key = .changed) :
    hostKeyCallback cfg hostname remoteAddr key term records (some c) lockOk readOk writeOk
      = ⟨.reject keyMismatchError, some c,
          [printErrorOutput term.isSome
            (changedKeyHead key (resolveKnownHostsFile cfg) ++
              changedKeyTail key (wantKeys records hostname))], []⟩ := by
  simp [hostKeyCallback, checkHostKey, hcfg, hcl]

/-- Witness for the amended C1 at a concrete input. -/
theorem changedKey_warnsThenRejects_witness :
    resolveKnownHostsFile ⟨"kh", "", .ask⟩ ≠ "" ∧
    classifyKey [⟨"example.com", "ssh-rsa", [1], "kh", 1⟩] "example.com"
      ⟨"ssh-rsa", [9], "fp"⟩ = .changed ∧
    hostKeyCallback ⟨"kh", "", .ask⟩ "example.com" "addr" ⟨"ssh-rsa", [9], "fp"⟩ none
        [⟨"example.com", "ssh-rsa", [1], "kh", 1⟩] (some ['x']) true true true
      = ⟨.reject keyMismatchError, some ['x'],
          [printErrorOutput (none : Option (List String)).isSome
            (changedKeyHead ⟨"ssh-rsa", [9], "fp"⟩ (resolveKnownHostsFile ⟨"kh", "", .ask⟩) ++
              changedKeyTail ⟨"ssh-rsa", [9], "fp"⟩
                (wantKeys [⟨"example.com", "ssh-rsa", [1], "kh", 1⟩] "example.com"))], []⟩ :=
  ⟨by decide, by decide,
    changedKey_warnsThenRejects _ _ _ _ _ _ _ _ _ _ (by decide) (by decide)⟩

/-! ### Claim C5 -/

/-- Claim C5 fails as stated at this input: under the Disabled policy an
offered triple absent from the store because the hostname is present with
different key bytes is rejected with the key-mismatch error — nothing is
appended and no warning about a permanent addition is emitted. -/
theorem disabled_changedKey_cex :
    (hostKeyCallback ⟨"kh", "", .no⟩ "example.com" "addr" ⟨"ssh-rsa", [9], "fp"⟩ none
        [⟨"example.com", "ssh-rsa", [1], "kh", 1⟩] (some ['x']) true true true).result
      = .reject keyMismatchError ∧
    (hostKeyCallback ⟨"kh", "", .no⟩ "example.com" "addr" ⟨"ssh-rsa", [9], "fp"⟩ none
        [⟨"example.com", "ssh-rsa", [1], "kh", 1⟩] (some ['x']) true true true).contents
      = some ['x'] ∧
    (hostKeyCallback ⟨"kh", "", .no⟩ "example.com" "addr" ⟨"ssh-rsa", [9], "fp"⟩ none
        [⟨"example.com", "ssh-rsa", [1], "kh", 1⟩] (some ['x']) true true true).ops
      = [] := by
  exact ⟨by decide, by decide, by decide⟩

/-- Claim C5 amended: under the Disabled policy, when the store holds no record
for the offered hostname (or the file is missing), verification accepts without
prompting, emits exactly the non-blocking permanently-added warning (terminal
if available, else log), and the file gains exactly the one record line with
its trailing newline — identically whether the file was missing, empty, or
non-empty without a trailing newline (a separating newline being inserted in
the last case). -/
theorem disabled_unknown_appendsOneLine (cfg : Config) (hostname remoteAddr : String)
    (key : PublicKey) (term : Option (List String)) (records : List HostKeyRecord)
    (contents : Option (List Char))
    (hcfg : resolveKnownHostsFile cfg ≠ "") (hdev : resolveKnownHostsFile cfg ≠ osDevNull)
    (hpol : cfg.strictHostKeyChecking = .no)
    (hcls : contents = none ∨ classifyKey records hostname key = .unknown)
    (hhn : '\n' ∉ hostname.toList) (hkt : '\n' ∉ key.keyType.toList) :
    hostKeyCallback cfg hostname remoteAddr key term records contents true true true
      = ⟨.accept, some (appendRecord (contents.getD []) (knownhostsLine hostname key)),
          [printErrorOutput term.isSome (permanentlyAddedMsg hostname key.keyType)],
          [.acquireLock lockName, .readFile (resolveKnownHostsFile cfg),
            .writeFile (tmpPath (resolveKnownHostsFile cfg))
              (appendRecord (contents.getD []) (knownhostsLine hostname key)),
            .rename (tmpPath (resolveKnownHostsFile cfg)) (resolveKnownHostsFile cfg),
            .releaseLock lockName]⟩ ∧
    splitLines (appendRecord (contents.getD []) (knownhostsLine hostname key))
      = (splitLines (ensureTrailingNewline (contents.getD []))).dropLast
          ++ [knownhostsLine hostname key, []] ∧
    (contents = none →
      appendRecord (contents.getD []) (knownhostsLine hostname key)
        = knownhostsLine hostname key ++ ['\n']) ∧
    (contents.getD [] = [] →
      appendRecord (contents.getD []) (knownhostsLine hostname key)
        = knownhostsLine hostname key ++ ['\n']) ∧
    (contents.getD [] ≠ [] → (contents.getD []).getLast? ≠ some '\n' →
      appendRecord (contents.getD []) (knownhostsLine hostname key)
        = contents.getD [] ++ '\n' :: (knownhostsLine hostname key ++ ['\n'])) := by
  refine ⟨?_, splitLines_appendRecord _ _ (knownhostsLine_nlfree hostname key hhn hkt),
    ?_, ?_, ?_⟩
  · rcases hcls with hc | hc
    · subst hc
      simp [hostKeyCallback, checkHostKey, finishAccept, persistKey, hcfg, hdev, hpol]
    · cases contents with
      | none =>
        simp [hostKeyCallback, checkHostKey, finishAccept, persistKey, hcfg, hdev, hpol]
      | some c =>
        simp [hostKeyCallback, checkHostKey, finishAccept, persistKey, hcfg, hdev, hpol, hc]
  · intro hc
    subst hc
    simp [appendRecord, ensureTrailingNewline]
  · intro hc
    rw [appendRecord, hc]
    simp [ensureTrailingNewline]
  · intro h1 h2
    rw [appendRecord, ensureTrailingNewline_eq_concat _ h1 h2]
    simp

/-- Witness for the amended C5 at a concrete input (missing store file). -/
theorem disabled_unknown_appendsOneLine_witness :
    resolveKnownHostsFile ⟨"kh", "", .no⟩ ≠ "" ∧
    resolveKnownHostsFile ⟨"kh", "", .no⟩ ≠ osDevNull ∧
    (⟨"kh", "", .no⟩ : Config).strictHostKeyChecking = .no ∧
    ((none : Option (List Char)) = none ∨
      classifyKey [] "h" ⟨"ssh-rsa", [1], "fp"⟩ = .unknown) ∧
    '\n' ∉ ("h" : String).toList ∧
    '\n' ∉ ("ssh-rsa" : String).toList ∧
    (hostKeyCallback ⟨"kh", "", .no⟩ "h" "addr" ⟨"ssh-rsa", [1], "fp"⟩ none [] none
        true true true
      = ⟨.accept,
          some (appendRecord ((none : Option (List Char)).getD [])
            (knownhostsLine "h" ⟨"ssh-rsa", [1], "fp"⟩)),
          [printErrorOutput (none : Option (List String)).isSome
            (permanentlyAddedMsg "h" "ssh-rsa")],
          [.acquireLock lockName, .readFile (resolveKnownHostsFile ⟨"kh", "", .no⟩),
            .writeFile (tmpPath (resolveKnownHostsFile ⟨"kh", "", .no⟩))
              (appendRecord ((none : Option (List Char)).getD [])
                (knownhostsLine "h" ⟨"ssh-rsa", [1], "fp"⟩)),
            .rename (tmpPath (resolveKnownHostsFile ⟨"kh", "", .no⟩))
              (resolveKnownHostsFile ⟨"kh", "", .no⟩),
            .releaseLock lockName]⟩ ∧
      splitLines (appendRecord ((none : Option (List Char)).getD [])
          (knownhostsLine "h" ⟨"ssh-rsa", [1], "fp"⟩))
        = (splitLines (ensureTrailingNewline ((none : Option (List Char)).getD []))).dropLast
            ++ [knownhostsLine "h" ⟨"ssh-rsa", [1], "fp"⟩, []] ∧
      ((none : Option (List Char)) = none →
        appendRecord ((none : Option (List Char)).getD [])
            (knownhostsLine "h" ⟨"ssh-rsa", [1], "fp"⟩)
          = knownhostsLine "h" ⟨"ssh-rsa", [1], "fp"⟩ ++ ['\n']) ∧
      ((none : Option (List Char)).getD [] = [] →
        appendRecord ((none : Option (List Char)).getD [])
            (knownhostsLine "h" ⟨"ssh-rsa", [1], "fp"⟩)
          = knownhostsLine "h" ⟨"ssh-rsa", [1], "fp"⟩ ++ ['\n']) ∧
      ((none : Option (List Char)).getD [] ≠ [] →
          ((none : Option (List Char)).getD []).getLast? ≠ some '\n' →
        appendRecord ((none : Option (List Char)).getD [])
            (knownhostsLine "h" ⟨"ssh-rsa", [1], "fp"⟩)
          = (none : Option (List Char)).getD []
              ++ '\n' :: (knownhostsLine "h" ⟨"ssh-rsa", [1], "fp"⟩ ++ ['\n']))) :=
  ⟨by decide, by decide, rfl, Or.inl rfl, by decide, by decide,
    disabled_unknown_appendsOneLine ⟨"kh", "", .no⟩ "h" "addr" ⟨"ssh-rsa", [1], "fp"⟩
      none [] none (by decide) (by decide) rfl (Or.inl rfl) (by decide) (by decide)⟩

/-! ### Claim C7 -/

theorem promptLoop_skip_others (pre inputs : List String)
    (hpre : ∀ y ∈ pre, strToLower y ≠ "yes" ∧ strToLower y ≠ "no") :
    promptLoop (pre ++ inputs)
      = ((pre.map fun _ => Output.term pleaseTypeMsg) ++ (promptLoop inputs).1,
        (promptLoop inputs).2) := by
  induction pre with
  | nil => simp
  | cons y pre ih =>
    have hy := hpre y (List.mem_cons_self _ _)
    rw [List.cons_append]
    simp only [promptLoop]
    rw [if_neg hy.1, if_neg hy.2, ih fun z hz => hpre z (List.mem_cons_of_mem _ hz)]
    simp

/-- Claim C7: in the interactive prompt loop, every input line other than a
case-insensitive "yes" or "no" emits the re-prompt and reads again; when the
first decisive line lowers to "no", the callback rejects with the error
"Host key verification failed.", performing no persistence and no file
operation; when it lowers to "yes", the callback accepts and then persists the
record through the locked atomic append. -/
theorem promptLoop_yes_no_behaviour (cfg : Config) (hostname remoteAddr : String)
    (key : PublicKey) (records : List HostKeyRecord) (contents : Option (List Char))
    (pre : List String) (x : String) (rest : List String)
    (hcfg : resolveKnownHostsFile cfg ≠ "") (hdev : resolveKnownHostsFile cfg ≠ osDevNull)
    (hpol : cfg.strictHostKeyChecking = .default ∨ cfg.strictHostKeyChecking = .ask)
    (hcls : contents = none ∨ classifyKey records hostname key = .unknown)
    (hpre : ∀ y ∈ pre, strToLower y ≠ "yes" ∧ strToLower y ≠ "no") :
    (∀ line more, strToLower line ≠ "yes" → strToLower line ≠ "no" →
      promptLoop (line :: more)
        = (Output.term pleaseTypeMsg :: (promptLoop more).1, (promptLoop more).2)) ∧
    (strToLower x = "no" →
      hostKeyCallback cfg hostname remoteAddr key (some (pre ++ x :: rest)) records contents
          true true true
        = ⟨.reject verificationFailedMsg, contents,
            Output.term (authenticityMessage hostname remoteAddr key ++ continuePrompt)
              :: pre.map (fun _ => Output.term pleaseTypeMsg), []⟩) ∧
    (strToLower x = "yes" →
      hostKeyCallback cfg hostname remoteAddr key (some (pre ++ x :: rest)) records contents
          true true true
        = ⟨.accept, some (appendRecord (contents.getD []) (knownhostsLine hostname key)),
            Output.term (authenticityMessage hostname remoteAddr key ++ continuePrompt)
              :: pre.map (fun _ => Output.term pleaseTypeMsg),
            [.acquireLock lockName, .readFile (resolveKnownHostsFile cfg),
              .writeFile (tmpPath (resolveKnownHostsFile cfg))
                (appendRecord (contents.getD []) (knownhostsLine hostname key)),
              .rename (tmpPath (resolveKnownHostsFile cfg)) (resolveKnownHostsFile cfg),
              .releaseLock lockName]⟩) := by
  have hchk : ∀ t : Bool,
      checkHostKey hostname key (resolveKnownHostsFile cfg) records contents t
        = ⟨false, none, []⟩ := by
    intro t
    rcases hcls with hc | hc
    · subst hc; simp [checkHostKey]
    · cases contents with
      | none => simp [checkHostKey]
      | some c => simp [checkHostKey, hc]
  refine ⟨?_, ?_, ?_⟩
  · intro line more h1 h2
    simp only [promptLoop]
    rw [if_neg h1, if_neg h2]
  · intro hx
    have hloop : promptLoop (pre ++ x :: rest)
        = (pre.map fun _ => Output.term pleaseTypeMsg, some false) := by
      have hstep : promptLoop (x :: rest) = ([], some false) := by
        simp only [promptLoop]
        rw [if_neg (by rw [hx]; decide), if_pos hx]
      rw [promptLoop_skip_others pre _ hpre, hstep]
      simp
    rcases hpol with hp | hp <;>
      simp [hostKeyCallback, hchk, askUser, hcfg, hp, hloop]
  · intro hx
    have hloop : promptLoop (pre ++ x :: rest)
        = (pre.map fun _ => Output.term pleaseTypeMsg, some true) := by
      have hstep : promptLoop (x :: rest) = ([], some true) := by
        simp only [promptLoop]
        rw [if_pos hx]
      rw [promptLoop_skip_others pre _ hpre, hstep]
      simp
    rcases hpol with hp | hp <;>
      simp [hostKeyCallback, hchk, askUser, finishAccept, persistKey, hcfg, hdev, hp, hloop]

/-- Witness for C7 at a concrete input: one non-decisive line, then a
case-insensitive "no". -/
theorem promptLoop_yes_no_behaviour_witness :
    resolveKnownHostsFile ⟨"kh", "", .default⟩ ≠ "" ∧
    resolveKnownHostsFile ⟨"kh", "", .default⟩ ≠ osDevNull ∧
    ((⟨"kh", "", .default⟩ : Config).strictHostKeyChecking = .default ∨
      (⟨"kh", "", .default⟩ : Config).strictHostKeyChecking = .ask) ∧
    ((none : Option (List Char)) = none ∨
      classifyKey [] "h" ⟨"ssh-rsa", [1], "fp"⟩ = .unknown) ∧
    (∀ y ∈ (["maybe"] : List String), strToLower y ≠ "yes" ∧ strToLower y ≠ "no") ∧
    ((∀ line more, strToLower line ≠ "yes" → strToLower line ≠ "no" →
      promptLoop (line :: more)
        = (Output.term pleaseTypeMsg :: (promptLoop more).1, (promptLoop more).2)) ∧
    (strToLower "No" = "no" →
      hostKeyCallback ⟨"kh", "", .default⟩ "h" "addr" ⟨"ssh-rsa", [1], "fp"⟩
          (some (["maybe"] ++ "No" :: [])) [] none true true true
        = ⟨.reject verificationFailedMsg, none,
            Output.term (authenticityMessage "h" "addr" ⟨"ssh-rsa", [1], "fp"⟩
                ++ continuePrompt)
              :: (["maybe"] : List String).map (fun _ => Output.term pleaseTypeMsg), []⟩) ∧
    (strToLower "No" = "yes" →
      hostKeyCallback ⟨"kh", "", .default⟩ "h" "addr" ⟨"ssh-rsa", [1], "fp"⟩
          (some (["maybe"] ++ "No" :: [])) [] none true true true
        = ⟨.accept,
            some (appendRecord ((none : Option (List Char)).getD [])
              (knownhostsLine "h" ⟨"ssh-rsa", [1], "fp"⟩)),
            Output.term (authenticityMessage "h" "addr" ⟨"ssh-rsa", [1], "fp"⟩
                ++ continuePrompt)
              :: (["maybe"] : List String).map (fun _ => Output.term pleaseTypeMsg),
            [.acquireLock lockName, .readFile (resolveKnownHostsFile ⟨"kh", "", .default⟩),
              .writeFile (tmpPath (resolveKnownHostsFile ⟨"kh", "", .default⟩))
                (appendRecord ((none : Option (List Char)).getD [])
                  (knownhostsLine "h" ⟨"ssh-rsa", [1], "fp"⟩)),
              .rename (tmpPath (resolveKnownHostsFile ⟨"kh", "", .default⟩))
                (resolveKnownHostsFile ⟨"kh", "", .default⟩),
              .releaseLock lockName]⟩)) :=
  ⟨by decide, by decide, Or.inl rfl, Or.inl rfl, by decide,
    promptLoop_yes_no_behaviour ⟨"kh", "", .default⟩ "h" "addr" ⟨"ssh-rsa", [1], "fp"⟩
      [] none ["maybe"] "No" [] (by decide) (by decide) (Or.inl rfl) (Or.inl rfl)
      (by decide)⟩

end SSHGoCrypto
